import Mathlib

/-!
Shallow embedding of the metric bridge of `obs_studio_exporter` (`src/main.go`).

The bridge stores, per audio source, three families of circular sample
buffers (magnitude, peak, input peak), each `circBufSamples = 32` slots wide,
one buffer per channel.  Sample values in the Go code are `float64`; the
bridge only ever stores pushed values, compares them with `math.Max`, and
uses `math.Inf(-1)` as the sentinel for untouched slots.  We therefore embed
the value type as an arbitrary linear order `α` with a bottom element `⊥`
standing for negative infinity; the witnesses instantiate `α := WithBot ℤ`.

Native handles (`CID`, `VolMeter`) and the log sink are outside the
embedding; where the engine can refuse to create or attach a volmeter we
record the engine response as two booleans on the enumerated entity.
-/

namespace ObsExporter

/-- `circBufSamples = 32` from `main.go` (size of every ring buffer). -/
def circBufSamples : Nat := 32

/-- Prometheus namespace constant `namespace = "obs"` from `main.go`
(`namespace` is a Lean keyword, hence the changed name). -/
def metricNamespace : String := "obs"

/-- `encoderSubsystem = "encoder"` from `main.go`. -/
def encoderSubsystem : String := "encoder"

/-- `globalSubsystem = "global"` from `main.go`. -/
def globalSubsystem : String := "global"

/-- `outputSubsystem = "output"` from `main.go`. -/
def outputSubsystem : String := "output"

/-- `sourceSubsystem = "source"` from `main.go`. -/
def sourceSubsystem : String := "source"

/-- `prometheus.BuildFQName` from the prometheus client library: joins the
non-empty parts of namespace, subsystem and name with underscores. -/
def buildFQName (ns subsystem name : String) : String :=
  if name = "" then ""
  else if ns ≠ "" ∧ subsystem ≠ "" then ns ++ "_" ++ subsystem ++ "_" ++ name
  else if ns ≠ "" then ns ++ "_" ++ name
  else if subsystem ≠ "" then subsystem ++ "_" ++ name
  else name

/-- A `prometheus.Desc` as used by `main.go`: its fully qualified metric name
and the fixed list of variable label keys. -/
structure Desc where
  fqName : String
  variableLabels : List String
deriving DecidableEq

/-- The prometheus value kinds used by `Collect`. -/
inductive ValueType
  | GaugeValue
  | CounterValue
deriving DecidableEq

/-- One emitted metric sample: the desc it was built from, the value kind,
the numeric value, and the label values (in source order). -/
structure Sample (α : Type) where
  desc : Desc
  valueType : ValueType
  value : α
  labelValues : List String
deriving DecidableEq

/-- `InfoPerOutput` desc from `NewMetricCollector`. -/
def InfoPerOutput : Desc :=
  ⟨buildFQName metricNamespace outputSubsystem "info",
   ["output_id", "output_name", "output_display_name"]⟩

/-- `OutputActivePerOutput` desc from `NewMetricCollector`. -/
def OutputActivePerOutput : Desc :=
  ⟨buildFQName metricNamespace outputSubsystem "active", ["output_id", "output_name"]⟩

/-- `TotalBytesPerOutput` desc from `NewMetricCollector`. -/
def TotalBytesPerOutput : Desc :=
  ⟨buildFQName metricNamespace outputSubsystem "bytes_total", ["output_id", "output_name"]⟩

/-- `DroppedFramesPerOutput` desc from `NewMetricCollector`. -/
def DroppedFramesPerOutput : Desc :=
  ⟨buildFQName metricNamespace outputSubsystem "dropped_frames_total", ["output_id", "output_name"]⟩

/-- `TotalFramesPerOutput` desc from `NewMetricCollector`. -/
def TotalFramesPerOutput : Desc :=
  ⟨buildFQName metricNamespace outputSubsystem "frames", ["output_id", "output_name"]⟩

/-- `WidthPerOutput` desc from `NewMetricCollector`. -/
def WidthPerOutput : Desc :=
  ⟨buildFQName metricNamespace outputSubsystem "video_width", ["output_id", "output_name"]⟩

/-- `HeightPerOutput` desc from `NewMetricCollector`. -/
def HeightPerOutput : Desc :=
  ⟨buildFQName metricNamespace outputSubsystem "video_height", ["output_id", "output_name"]⟩

/-- `CongestionPerOutput` desc from `NewMetricCollector`. -/
def CongestionPerOutput : Desc :=
  ⟨buildFQName metricNamespace outputSubsystem "congestion", ["output_id", "output_name"]⟩

/-- `ConnectTimePerOutput` desc from `NewMetricCollector`. -/
def ConnectTimePerOutput : Desc :=
  ⟨buildFQName metricNamespace outputSubsystem "connect_time_seconds", ["output_id", "output_name"]⟩

/-- `ReconnectingPerOutput` desc from `NewMetricCollector`. -/
def ReconnectingPerOutput : Desc :=
  ⟨buildFQName metricNamespace outputSubsystem "reconnecting", ["output_id", "output_name"]⟩

/-- `InfoPerEncoder` desc from `NewMetricCollector`. -/
def InfoPerEncoder : Desc :=
  ⟨buildFQName metricNamespace encoderSubsystem "info",
   ["encoder_id", "encoder_name", "encoder_display_name", "encoder_codec"]⟩

/-- `WidthPerEncoder` desc from `NewMetricCollector`. -/
def WidthPerEncoder : Desc :=
  ⟨buildFQName metricNamespace encoderSubsystem "width", ["encoder_id", "encoder_name"]⟩

/-- `HeightPerEncoder` desc from `NewMetricCollector`. -/
def HeightPerEncoder : Desc :=
  ⟨buildFQName metricNamespace encoderSubsystem "height", ["encoder_id", "encoder_name"]⟩

/-- `SampleRatePerEncoder` desc from `NewMetricCollector`. -/
def SampleRatePerEncoder : Desc :=
  ⟨buildFQName metricNamespace encoderSubsystem "sample_rate", ["encoder_id", "encoder_name"]⟩

/-- `ActivePerEncoder` desc from `NewMetricCollector`.  Note: the source
builds this desc with `globalSubsystem`, not `encoderSubsystem`
(`main.go` line 218). -/
def ActivePerEncoder : Desc :=
  ⟨buildFQName metricNamespace globalSubsystem "active", ["encoder_id", "encoder_name"]⟩

/-- `MagnitudePerSourceChannel` desc from `NewMetricCollector`. -/
def MagnitudePerSourceChannel : Desc :=
  ⟨buildFQName metricNamespace sourceSubsystem "channel_magnitude",
   ["source_id", "source_name", "channel_id"]⟩

/-- `PeakPerSourceChannel` desc from `NewMetricCollector`. -/
def PeakPerSourceChannel : Desc :=
  ⟨buildFQName metricNamespace sourceSubsystem "channel_peak",
   ["source_id", "source_name", "channel_id"]⟩

/-- `InputPeakPerSourceChannel` desc from `NewMetricCollector`. -/
def InputPeakPerSourceChannel : Desc :=
  ⟨buildFQName metricNamespace sourceSubsystem "input_peak",
   ["source_id", "source_name", "channel_id"]⟩

/-- `obsBoolMetric` from `main.go`: booleans become the gauge values 1 / 0. -/
def obsBoolMetric (b : Bool) : ℚ :=
  if b then 1 else 0

/-- The data `enumOutputsCB` reads from one enumerated output.  Numeric
engine fields are embedded at their mathematical values (the `float64`
conversions in the Go code are exact for these claims). -/
structure EnumOutput where
  id : String
  name : String
  displayName : String
  active : Bool
  totalBytes : Nat
  droppedFrames : Int
  totalFrames : Int
  width : Nat
  height : Nat
  congestion : ℚ
  connectTimeMs : Int
  reconnecting : Bool
deriving DecidableEq

/-- The data `enumEncodersCB` reads from one enumerated encoder.  `isAudio`
is the test `obs_encoder_get_type(o) == OBS_ENCODER_AUDIO`. -/
structure EnumEncoder where
  id : String
  name : String
  displayName : String
  codec : String
  isAudio : Bool
  active : Bool
  width : Nat
  height : Nat
  sampleRate : Nat
deriving DecidableEq

/-- Body of the `enumOutputsCB` closure in `Collect` (`main.go` lines
380-398): the ten samples emitted for one output, in send order.  Line 390
of the source passes `prometheus.GaugeValue` for `TotalFramesPerOutput`. -/
def enumOutputsCB (o : EnumOutput) : List (Sample ℚ) :=
  [ ⟨InfoPerOutput, .GaugeValue, 1, [o.id, o.name, o.displayName]⟩,
    ⟨OutputActivePerOutput, .GaugeValue, obsBoolMetric o.active, [o.id, o.name]⟩,
    ⟨TotalBytesPerOutput, .CounterValue, (o.totalBytes : ℚ), [o.id, o.name]⟩,
    ⟨DroppedFramesPerOutput, .CounterValue, (o.droppedFrames : ℚ), [o.id, o.name]⟩,
    ⟨TotalFramesPerOutput, .GaugeValue, (o.totalFrames : ℚ), [o.id, o.name]⟩,
    ⟨WidthPerOutput, .GaugeValue, (o.width : ℚ), [o.id, o.name]⟩,
    ⟨HeightPerOutput, .GaugeValue, (o.height : ℚ), [o.id, o.name]⟩,
    ⟨CongestionPerOutput, .GaugeValue, o.congestion, [o.id, o.name]⟩,
    ⟨ConnectTimePerOutput, .GaugeValue, (o.connectTimeMs : ℚ) / 1000, [o.id, o.name]⟩,
    ⟨ReconnectingPerOutput, .GaugeValue, obsBoolMetric o.reconnecting, [o.id, o.name]⟩ ]

/-- Body of the `enumEncodersCB` closure in `Collect` (`main.go` lines
401-422): info and active samples, then the width / height / sample rate
triple branching on `isAudioEncoder`. -/
def enumEncodersCB (e : EnumEncoder) : List (Sample ℚ) :=
  [ ⟨InfoPerEncoder, .GaugeValue, 1, [e.id, e.name, e.displayName, e.codec]⟩,
    ⟨ActivePerEncoder, .GaugeValue, obsBoolMetric e.active, [e.id, e.name]⟩ ] ++
  (if e.isAudio then
    [ ⟨WidthPerEncoder, .GaugeValue, 0, [e.id, e.name]⟩,
      ⟨HeightPerEncoder, .GaugeValue, 0, [e.id, e.name]⟩,
      ⟨SampleRatePerEncoder, .GaugeValue, (e.sampleRate : ℚ), [e.id, e.name]⟩ ]
  else
    [ ⟨WidthPerEncoder, .GaugeValue, (e.width : ℚ), [e.id, e.name]⟩,
      ⟨HeightPerEncoder, .GaugeValue, (e.height : ℚ), [e.id, e.name]⟩,
      ⟨SampleRatePerEncoder, .GaugeValue, 0, [e.id, e.name]⟩ ])

/-- The `Source` struct of `main.go` (native fields `CID` and `VolMeter`
are outside the embedding).  `Pos` is the shared write cursor, kept in
`Fin circBufSamples` (the Go code keeps it an `int` that is always reduced
mod `circBufSamples`); each of `Magnitude`, `Peak`, `InputPeak` is a list of
per-channel 32-slot buffers. -/
structure Source (α : Type) where
  ID : String
  Name : String
  Channels : Nat
  Pos : Fin circBufSamples
  Magnitude : List (Fin circBufSamples → α)
  Peak : List (Fin circBufSamples → α)
  InputPeak : List (Fin circBufSamples → α)
deriving DecidableEq

/-- The mutable part of `MetricCollector`: the registry `sources`,
embedded as an association list keyed by the source id. -/
structure MetricCollector (α : Type) where
  sources : List (String × Source α)
deriving DecidableEq

/-- The measurement kinds stored per source. -/
inductive MeasKind
  | magnitude
  | peak
  | inputPeak
deriving DecidableEq

/-- The buffer family of a source for one measurement kind. -/
def Source.bufs {α : Type} (src : Source α) : MeasKind → List (Fin circBufSamples → α)
  | .magnitude => src.Magnitude
  | .peak => src.Peak
  | .inputPeak => src.InputPeak

/-- A buffer with every slot still at the negative-infinity sentinel, as
built in the creation branch of `enumSourcesCB` (`negInf` fill loop). -/
def botBuf {α : Type} [Bot α] : Fin circBufSamples → α :=
  fun _ => ⊥

/-- The `Source` value built in the creation branch of `enumSourcesCB`
(`main.go` lines 309-344): `Channels` hard-coded to 2, cursor at 0, and all
buffers pre-filled with the sentinel. -/
def mkFreshSource {α : Type} [Bot α] (id nm : String) : Source α :=
  { ID := id
    Name := nm
    Channels := 2
    Pos := ⟨0, by decide⟩
    Magnitude := List.replicate 2 botBuf
    Peak := List.replicate 2 botBuf
    InputPeak := List.replicate 2 botBuf }

/-- Map lookup on the registry association list (`c.sources[id]` in Go). -/
def lookupSrc {α : Type} : List (String × Source α) → String → Option (Source α)
  | [], _ => none
  | (k, s) :: rest, id => if k = id then some s else lookupSrc rest id

/-- The cursor advance `src.Pos = (src.Pos + 1) % circBufSamples` from
`mc_volmeter_updated_go`. -/
def nextPos (p : Fin circBufSamples) : Fin circBufSamples :=
  ⟨(p.val + 1) % circBufSamples, Nat.mod_lt _ (by decide)⟩

/-- Helper for the write loop of `mc_volmeter_updated_go`: walking the list
of per-channel buffers with running channel index `k`, every buffer whose
channel index is below `nchan` gets slot `pos` overwritten with the supplied
value for that channel. -/
def writeBufsAux {α : Type} (vals : Nat → α) (pos : Fin circBufSamples) (nchan : Nat) :
    Nat → List (Fin circBufSamples → α) → List (Fin circBufSamples → α)
  | _, [] => []
  | k, buf :: rest =>
      (if k < nchan then Function.update buf pos (vals k) else buf) ::
        writeBufsAux vals pos nchan (k + 1) rest

/-- The loop `for ch := 0; ch < src.Channels; ch++ { bufs[ch][src.Pos] = vals[ch] }`
from `mc_volmeter_updated_go`, for one buffer family. -/
def writeBufs {α : Type} (bufs : List (Fin circBufSamples → α)) (nchan : Nat)
    (vals : Nat → α) (pos : Fin circBufSamples) : List (Fin circBufSamples → α) :=
  writeBufsAux vals pos nchan 0 bufs

/-- The registered-source body of `mc_volmeter_updated_go` (`main.go` lines
484-496): write the supplied magnitude / peak / input-peak values for every
channel below `src.Channels` at the shared cursor, then advance the cursor
by one modulo `circBufSamples`.  The supplied values are embedded as
functions from channel index to value (`genSlice` reads the fixed-size C
arrays; only indices below `src.Channels` are consumed). -/
def volmeterPush {α : Type} (src : Source α) (m p ip : Nat → α) : Source α :=
  { src with
    Magnitude := writeBufs src.Magnitude src.Channels m src.Pos
    Peak := writeBufs src.Peak src.Channels p src.Pos
    InputPeak := writeBufs src.InputPeak src.Channels ip src.Pos
    Pos := nextPos src.Pos }

/-- `mc_volmeter_updated_go` (`main.go` lines 471-496): look the id up in
the registry; if absent, only a log line is produced and nothing changes;
if present, push the supplied samples into that source.  The logging side
effect is outside the embedding. -/
def mc_volmeter_updated_go {α : Type} (c : MetricCollector α) (id : String)
    (m p ip : Nat → α) : MetricCollector α :=
  match lookupSrc c.sources id with
  | none => c
  | some _ =>
      ⟨c.sources.map (fun q => if q.1 = id then (q.1, volmeterPush q.2 m p ip) else q)⟩

/-- `vs.foldl max ⊥`: the running maximum the reduce loop of `Collect`
computes, starting from the negative-infinity accumulator. -/
def listSup {α : Type} [LinearOrder α] [OrderBot α] (vs : List α) : α :=
  vs.foldl max ⊥

/-- The reduce loop of `Collect` (`main.go` lines 350-357) for one buffer:
`acc := -inf; for n := 0; n < circBufSamples; n++ { acc = max(acc, buf[n]) }`. -/
def reduceBuf {α : Type} [LinearOrder α] [OrderBot α] (buf : Fin circBufSamples → α) : α :=
  (List.finRange circBufSamples).foldl (fun acc n => max acc (buf n)) ⊥

/-- Read the buffer of channel `chn` (`src.Magnitude[chn]` in Go; for
well-formed sources `chn` is always below the list length, so the default
is never consulted). -/
def bufAt {α : Type} [Bot α] (bufs : List (Fin circBufSamples → α)) (chn : Nat) :
    Fin circBufSamples → α :=
  bufs.getD chn botBuf

/-- The emission branch of `enumSourcesCB` for an already-registered source
(`main.go` lines 347-363): for each channel, reduce the three buffers and
emit the three gauge samples labelled with the stored id, name and the
decimal channel index. -/
def summarizeSource {α : Type} [LinearOrder α] [OrderBot α] (src : Source α) :
    List (Sample α) :=
  (List.range src.Channels).flatMap (fun chn =>
    [ ⟨MagnitudePerSourceChannel, .GaugeValue, reduceBuf (bufAt src.Magnitude chn),
        [src.ID, src.Name, toString chn]⟩,
      ⟨PeakPerSourceChannel, .GaugeValue, reduceBuf (bufAt src.Peak chn),
        [src.ID, src.Name, toString chn]⟩,
      ⟨InputPeakPerSourceChannel, .GaugeValue, reduceBuf (bufAt src.InputPeak chn),
        [src.ID, src.Name, toString chn]⟩ ])

/-- One enumerated source as seen by `enumSourcesCB`, together with the
engine responses to the two fallible interop calls of the creation branch:
`createOk` is `obs_volmeter_create` returning non-nil, `attachOk` is
`obs_volmeter_attach_source` succeeding. -/
structure EnumSource where
  id : String
  name : String
  createOk : Bool
  attachOk : Bool
deriving DecidableEq

/-- The state threaded through one reconciliation pass of `Collect`: the
`seenSources` set, the registry, and the audio-summary samples sent so far. -/
structure CState (α : Type) where
  seen : List String
  sources : List (String × Source α)
  emitted : List (Sample α)
deriving DecidableEq

/-- Body of the `enumSourcesCB` closure in `Collect` (`main.go` lines
297-365) for one enumerated source: de-duplicate by id, mark seen, then
either create a fresh tracked source (skipping it if the engine refuses the
volmeter creation or the attach) or, for an already-registered id, emit its
accumulated summaries. -/
def enumSourcesCB {α : Type} [LinearOrder α] [OrderBot α] (st : CState α)
    (o : EnumSource) : CState α :=
  if o.id ∈ st.seen then st
  else
    let st1 : CState α := { st with seen := o.id :: st.seen }
    match lookupSrc st1.sources o.id with
    | none =>
        if o.createOk = false then st1
        else if o.attachOk = false then st1
        else { st1 with sources := st1.sources ++ [(o.id, mkFreshSource o.id o.name)] }
    | some src => { st1 with emitted := st1.emitted ++ summarizeSource src }

/-- The source-reconciliation part of `Collect` (`main.go` lines 295-378):
run `enumSourcesCB` over the enumeration, then delete every registry entry
whose id was not seen in this pass. -/
def reconcileSources {α : Type} [LinearOrder α] [OrderBot α]
    (sources : List (String × Source α)) (E : List EnumSource) : CState α :=
  let st := E.foldl enumSourcesCB ⟨[], sources, []⟩
  { st with sources := st.sources.filter (fun q => decide (q.1 ∈ st.seen)) }

/-- Registry evolution across a whole sequence of scrapes: fold the
reconciliation part of `Collect` over the enumerations. -/
def reconcileSeq {α : Type} [LinearOrder α] [OrderBot α]
    (sources : List (String × Source α)) (Es : List (List EnumSource)) :
    List (String × Source α) :=
  Es.foldl (fun s E => (reconcileSources s E).sources) sources

/-- Well-formedness of one registry entry: the stored id matches the key and
the creation-branch shape (two channels, one 32-slot buffer per channel and
kind) is intact. -/
def wfEntry {α : Type} (q : String × Source α) : Prop :=
  q.2.ID = q.1 ∧ q.2.Channels = 2 ∧ q.2.Magnitude.length = 2 ∧
    q.2.Peak.length = 2 ∧ q.2.InputPeak.length = 2

/-- Well-formedness of the registry: keys are distinct and every entry is
well-formed.  Holds for the empty initial registry and is preserved by the
reconciler and the push callback. -/
def wfSources {α : Type} (l : List (String × Source α)) : Prop :=
  (l.map Prod.fst).Nodup ∧ ∀ q ∈ l, wfEntry q

/-- One push at the single-buffer level: overwrite the cursor slot, advance
the cursor (the per-channel, per-kind component of `mc_volmeter_updated_go`). -/
def pushOne {α : Type} (s : (Fin circBufSamples → α) × Fin circBufSamples) (v : α) :
    (Fin circBufSamples → α) × Fin circBufSamples :=
  (Function.update s.1 s.2 v, nextPos s.2)

/-- Iterated single-buffer pushes. -/
def pushList {α : Type} (s : (Fin circBufSamples → α) × Fin circBufSamples)
    (vs : List α) : (Fin circBufSamples → α) × Fin circBufSamples :=
  vs.foldl pushOne s

/-- The offset of slot `i` from cursor position `p`, measured forward around
the ring: the `j`-th push starting at cursor `p` lands in the slot with
offset `j`. -/
def slotOff (p i : Fin circBufSamples) : Nat :=
  (i.val + circBufSamples - p.val) % circBufSamples

/-- A callback payload: the per-channel magnitude, peak and input-peak
values of one `mc_volmeter_updated_go` invocation. -/
structure CB (α : Type) where
  m : Nat → α
  p : Nat → α
  ip : Nat → α

/-- Select the payload component for a measurement kind. -/
def CB.sel {α : Type} (c : CB α) : MeasKind → Nat → α
  | .magnitude => c.m
  | .peak => c.p
  | .inputPeak => c.ip

/-- A sequence of push-callback invocations applied to one source. -/
def volmeterPushSeq {α : Type} (src : Source α) (cbs : List (CB α)) : Source α :=
  cbs.foldl (fun s c => volmeterPush s c.m c.p c.ip) src

/-- The samples of a scrape that carry `id` as their first label value
(for source summaries the first label is the source id). -/
def samplesFor {α : Type} (id : String) (l : List (Sample α)) : List (Sample α) :=
  l.filter (fun s => decide (s.labelValues.head? = some id))

/-- Well-formedness of a source record as built by the creation branch. -/
def Source.wf {α : Type} (src : Source α) : Prop :=
  src.Channels = 2 ∧ src.Magnitude.length = 2 ∧ src.Peak.length = 2 ∧
    src.InputPeak.length = 2

theorem foldl_max_eq {α : Type} [LinearOrder α] [OrderBot α] (vs : List α) (a : α) :
    vs.foldl max a = max a (listSup vs) := by
  induction vs generalizing a with
  | nil => simp [listSup]
  | cons v vs ih =>
      show vs.foldl max (max a v) = max a (listSup (v :: vs))
      rw [ih (max a v)]
      show _ = max a (vs.foldl max (max ⊥ v))
      rw [ih (max ⊥ v), max_eq_right (bot_le : (⊥ : α) ≤ v), max_assoc]

theorem listSup_cons {α : Type} [LinearOrder α] [OrderBot α] (v : α) (vs : List α) :
    listSup (v :: vs) = max v (listSup vs) := by
  show vs.foldl max (max ⊥ v) = max v (listSup vs)
  rw [foldl_max_eq, max_eq_right (bot_le : (⊥ : α) ≤ v)]

theorem le_listSup {α : Type} [LinearOrder α] [OrderBot α] {v : α} {vs : List α}
    (h : v ∈ vs) : v ≤ listSup vs := by
  induction vs with
  | nil => cases h
  | cons w vs ih =>
      rw [listSup_cons]
      rcases List.mem_cons.mp h with rfl | h2
      · exact le_max_left _ _
      · exact le_trans (ih h2) (le_max_right _ _)

theorem listSup_le {α : Type} [LinearOrder α] [OrderBot α] {vs : List α} {M : α}
    (h : ∀ v ∈ vs, v ≤ M) : listSup vs ≤ M := by
  induction vs with
  | nil => exact bot_le
  | cons w vs ih =>
      rw [listSup_cons]
      exact max_le (h w (List.mem_cons_self _ _)) (ih fun v hv => h v (List.mem_cons_of_mem _ hv))

theorem reduceBuf_eq_listSup {α : Type} [LinearOrder α] [OrderBot α]
    (buf : Fin circBufSamples → α) :
    reduceBuf buf = listSup ((List.finRange circBufSamples).map buf) := by
  rw [reduceBuf, listSup, List.foldl_map]

theorem le_reduceBuf {α : Type} [LinearOrder α] [OrderBot α]
    (buf : Fin circBufSamples → α) (i : Fin circBufSamples) :
    buf i ≤ reduceBuf buf := by
  rw [reduceBuf_eq_listSup]
  exact le_listSup (List.mem_map_of_mem buf (List.mem_finRange i))

theorem reduceBuf_le {α : Type} [LinearOrder α] [OrderBot α]
    {buf : Fin circBufSamples → α} {M : α} (h : ∀ i, buf i ≤ M) :
    reduceBuf buf ≤ M := by
  rw [reduceBuf_eq_listSup]
  refine listSup_le ?_
  intro v hv
  rcases List.mem_map.mp hv with ⟨i, _, rfl⟩
  exact h i

theorem slotOff_lt (p i : Fin circBufSamples) : slotOff p i < circBufSamples := by
  have hp := p.isLt
  have hi := i.isLt
  unfold slotOff circBufSamples at *
  omega

theorem slotOff_self (p : Fin circBufSamples) : slotOff p p = 0 := by
  have hp := p.isLt
  unfold slotOff circBufSamples at *
  omega

theorem slotOff_nextPos_self (p : Fin circBufSamples) :
    slotOff (nextPos p) p = circBufSamples - 1 := by
  have hp := p.isLt
  unfold slotOff nextPos circBufSamples at *
  simp only
  omega

theorem slotOff_nextPos {p i : Fin circBufSamples} (h : i ≠ p) :
    slotOff p i = slotOff (nextPos p) i + 1 := by
  have hp := p.isLt
  have hi := i.isLt
  have hne : i.val ≠ p.val := fun hv => h (Fin.ext hv)
  unfold slotOff nextPos circBufSamples at *
  simp only
  omega

theorem pushList_fst {α : Type} (vs : List α)
    (s : (Fin circBufSamples → α) × Fin circBufSamples)
    (h : vs.length ≤ circBufSamples) (i : Fin circBufSamples) :
    (pushList s vs).1 i =
      if h2 : slotOff s.2 i < vs.length then vs.get ⟨slotOff s.2 i, h2⟩ else s.1 i := by
  induction vs generalizing s with
  | nil => simp [pushList]
  | cons v vs ih =>
      obtain ⟨buf, p⟩ := s
      have hlen : vs.length ≤ circBufSamples := le_trans (Nat.le_succ _) h
      have hlen31 : vs.length ≤ circBufSamples - 1 := by
        unfold circBufSamples at *
        simp at h
        omega
      show (pushList (pushOne (buf, p) v) vs).1 i =
        if h2 : slotOff p i < (v :: vs).length then (v :: vs).get ⟨slotOff p i, h2⟩
        else buf i
      rw [ih (pushOne (buf, p) v) hlen]
      show (if h2 : slotOff (nextPos p) i < vs.length then vs.get ⟨slotOff (nextPos p) i, h2⟩
            else Function.update buf p v i) = _
      by_cases hip : i = p
      · subst hip
        rw [dif_neg (by rw [slotOff_nextPos_self]; omega)]
        rw [dif_pos (by rw [slotOff_self]; simp)]
        simp [slotOff_self]
      · have hkey := slotOff_nextPos hip
        by_cases h3 : slotOff (nextPos p) i < vs.length
        · rw [dif_pos h3, dif_pos (by rw [hkey, List.length_cons]; omega)]
          simp only [List.get_eq_getElem, hkey, List.getElem_cons_succ]
        · rw [dif_neg h3, dif_neg (by rw [hkey, List.length_cons]; omega)]
          exact Function.update_noteq hip v buf

theorem pushList_snd {α : Type} (vs : List α)
    (s : (Fin circBufSamples → α) × Fin circBufSamples) :
    ((pushList s vs).2 : Nat) = (s.2.val + vs.length) % circBufSamples := by
  induction vs generalizing s with
  | nil =>
      have := s.2.isLt
      simp [pushList]
      unfold circBufSamples at *
      omega
  | cons v vs ih =>
      obtain ⟨buf, p⟩ := s
      have hp := p.isLt
      show ((pushList (pushOne (buf, p) v) vs).2 : Nat) = _
      rw [ih (pushOne (buf, p) v)]
      show ((nextPos p).val + vs.length) % circBufSamples = (p.val + (vs.length + 1)) % circBufSamples
      unfold nextPos circBufSamples at *
      simp only
      omega

/-- Pushing exactly `circBufSamples` values overwrites every slot of the
ring, so the reduction afterwards is the maximum of exactly those values,
whatever the buffer held before. -/
theorem reduce_pushList_full {α : Type} [LinearOrder α] [OrderBot α]
    (ws : List α) (s : (Fin circBufSamples → α) × Fin circBufSamples)
    (hw : ws.length = circBufSamples) :
    reduceBuf (pushList s ws).1 = listSup ws := by
  apply le_antisymm
  · refine reduceBuf_le fun i => ?_
    rw [pushList_fst ws s (le_of_eq hw) i,
      dif_pos (by rw [hw]; exact slotOff_lt s.2 i)]
    exact le_listSup (ws.get_mem _ _)
  · refine listSup_le fun v hv => ?_
    rcases List.mem_iff_get.mp hv with ⟨j, rfl⟩
    have hj32 : (j : Nat) < circBufSamples := hw ▸ j.isLt
    have hoff : slotOff s.2 ⟨((s.2 : Nat) + j) % circBufSamples,
        Nat.mod_lt _ (by decide)⟩ = j := by
      have hp := s.2.isLt
      unfold slotOff circBufSamples at *
      simp only
      omega
    have hle := le_reduceBuf (pushList s ws).1
      ⟨((s.2 : Nat) + j) % circBufSamples, Nat.mod_lt _ (by decide)⟩
    rw [pushList_fst ws s (le_of_eq hw),
      dif_pos (by rw [hoff]; exact j.isLt)] at hle
    refine le_trans (le_of_eq ?_) hle
    congr 1
    exact Fin.ext (by simp [hoff])

/-- Reduction of a buffer after a run of pushes starting from an all-sentinel
buffer: only the most recent `circBufSamples` pushed values matter, and with
at most `circBufSamples` pushes it is exactly the maximum of the pushed
values (bottom, alias negative infinity, for an empty run). -/
theorem reduce_pushList_fresh {α : Type} [LinearOrder α] [OrderBot α]
    (vs : List α) (p0 : Fin circBufSamples) :
    reduceBuf (pushList (botBuf, p0) vs).1 =
      listSup (vs.drop (vs.length - circBufSamples)) := by
  by_cases hle : vs.length ≤ circBufSamples
  · rw [Nat.sub_eq_zero_of_le hle, List.drop_zero]
    apply le_antisymm
    · refine reduceBuf_le fun i => ?_
      rw [pushList_fst vs _ hle i]
      by_cases h2 : slotOff p0 i < vs.length
      · rw [dif_pos h2]
        exact le_listSup (vs.get_mem _ _)
      · rw [dif_neg h2]
        exact bot_le
    · refine listSup_le fun v hv => ?_
      rcases List.mem_iff_get.mp hv with ⟨j, rfl⟩
      have hj32 : (j : Nat) < circBufSamples := lt_of_lt_of_le j.isLt hle
      have hoff : slotOff p0 ⟨((p0 : Nat) + j) % circBufSamples,
          Nat.mod_lt _ (by decide)⟩ = j := by
        have hp := p0.isLt
        unfold slotOff circBufSamples at *
        simp only
        omega
      have hle2 := le_reduceBuf (pushList (botBuf, p0) vs).1
        ⟨((p0 : Nat) + j) % circBufSamples, Nat.mod_lt _ (by decide)⟩
      rw [pushList_fst vs _ hle, dif_pos (by rw [hoff]; exact j.isLt)] at hle2
      refine le_trans (le_of_eq ?_) hle2
      congr 1
      exact Fin.ext (by simp [hoff])
  · push_neg at hle
    have hsplit : pushList (botBuf, p0) vs =
        pushList (pushList (botBuf, p0) (vs.take (vs.length - circBufSamples)))
          (vs.drop (vs.length - circBufSamples)) := by
      conv_lhs => rw [← List.take_append_drop (vs.length - circBufSamples) vs]
      exact List.foldl_append ..
    rw [hsplit]
    exact reduce_pushList_full _ _ (by rw [List.length_drop]; omega)

theorem writeBufsAux_length {α : Type} (vals : Nat → α) (pos : Fin circBufSamples)
    (nchan : Nat) : ∀ (bufs : List (Fin circBufSamples → α)) (k : Nat),
    (writeBufsAux vals pos nchan k bufs).length = bufs.length := by
  intro bufs
  induction bufs with
  | nil => intro k; rfl
  | cons b rest ih => intro k; simp [writeBufsAux, ih]

theorem writeBufsAux_getD {α : Type} (vals : Nat → α) (pos : Fin circBufSamples)
    (nchan : Nat) (d : Fin circBufSamples → α) :
    ∀ (bufs : List (Fin circBufSamples → α)) (k j : Nat),
    (writeBufsAux vals pos nchan k bufs).getD j d =
      if j < bufs.length ∧ k + j < nchan then
        Function.update (bufs.getD j d) pos (vals (k + j))
      else bufs.getD j d := by
  intro bufs
  induction bufs with
  | nil => intro k j; simp [writeBufsAux]
  | cons b rest ih =>
      intro k j
      cases j with
      | zero =>
          by_cases hk : k < nchan <;>
            simp [writeBufsAux, hk]
      | succ j =>
          show (writeBufsAux vals pos nchan (k + 1) rest).getD j d = _
          rw [ih (k + 1) j]
          have harith : k + 1 + j = k + (j + 1) := by omega
          rw [harith]
          simp only [List.getD_cons_succ, List.length_cons, Nat.add_lt_add_iff_right]

theorem bufAt_writeBufs {α : Type} [Bot α] (bufs : List (Fin circBufSamples → α))
    (nchan : Nat) (vals : Nat → α) (pos : Fin circBufSamples) (ch : Nat) :
    bufAt (writeBufs bufs nchan vals pos) ch =
      if ch < bufs.length ∧ ch < nchan then
        Function.update (bufAt bufs ch) pos (vals ch)
      else bufAt bufs ch := by
  unfold bufAt writeBufs
  rw [writeBufsAux_getD]
  simp

theorem volmeterPush_bufs {α : Type} (src : Source α) (c : CB α) (kind : MeasKind) :
    (volmeterPush src c.m c.p c.ip).bufs kind =
      writeBufs (src.bufs kind) src.Channels (c.sel kind) src.Pos := by
  cases kind <;> rfl

theorem volmeterPush_wf {α : Type} {src : Source α} (h : src.wf) (m p ip : Nat → α) :
    (volmeterPush src m p ip).wf := by
  obtain ⟨hc, h1, h2, h3⟩ := h
  exact ⟨hc, by simp [volmeterPush, writeBufs, writeBufsAux_length, h1],
    by simp [volmeterPush, writeBufs, writeBufsAux_length, h2],
    by simp [volmeterPush, writeBufs, writeBufsAux_length, h3]⟩

theorem mkFreshSource_wf {α : Type} [Bot α] (id nm : String) :
    (mkFreshSource id nm : Source α).wf := by
  refine ⟨rfl, ?_, ?_, ?_⟩ <;> simp [mkFreshSource]

theorem bufAt_mkFreshSource {α : Type} [Bot α] (id nm : String) (kind : MeasKind)
    (ch : Nat) : bufAt ((mkFreshSource id nm : Source α).bufs kind) ch = botBuf := by
  cases kind <;>
    · show (List.getD [botBuf, botBuf] ch botBuf) = botBuf
      rcases ch with _ | _ | n <;> rfl

/-- Iterating the push callback over one source acts, per channel and per
measurement kind, exactly as iterated single-buffer pushes on that channel
with the shared cursor. -/
theorem volmeterPushSeq_state {α : Type} [Bot α] (cbs : List (CB α)) :
    ∀ (src : Source α), src.wf → ∀ (kind : MeasKind) (ch : Nat), ch < 2 →
    bufAt ((volmeterPushSeq src cbs).bufs kind) ch =
        (pushList (bufAt (src.bufs kind) ch, src.Pos)
          (cbs.map (fun c => c.sel kind ch))).1 ∧
      (volmeterPushSeq src cbs).wf := by
  induction cbs with
  | nil =>
      intro src hwf kind ch hch
      exact ⟨rfl, hwf⟩
  | cons c cbs ih =>
      intro src hwf kind ch hch
      have hstep : bufAt ((volmeterPush src c.m c.p c.ip).bufs kind) ch =
          Function.update (bufAt (src.bufs kind) ch) src.Pos (c.sel kind ch) := by
        rw [volmeterPush_bufs src c kind, bufAt_writeBufs]
        rw [if_pos]
        constructor
        · cases kind
          · exact hwf.2.1 ▸ hch
          · exact hwf.2.2.1 ▸ hch
          · exact hwf.2.2.2 ▸ hch
        · exact hwf.1 ▸ hch
      obtain ⟨hbuf, hwf2⟩ := ih (volmeterPush src c.m c.p c.ip)
        (volmeterPush_wf hwf c.m c.p c.ip) kind ch hch
      refine ⟨?_, hwf2⟩
      show bufAt ((volmeterPushSeq (volmeterPush src c.m c.p c.ip) cbs).bufs kind) ch = _
      rw [hbuf, hstep]
      rfl

/-- C2: a fresh tracked source is pre-filled with bottom (negative infinity)
sentinels; after any run of push callbacks, for every channel below the
fixed channel count 2 and every measurement kind, the reduce loop of
`Collect` yields exactly the maximum of the most recent `circBufSamples`
(32) pushed values for that channel and kind — for `k ≤ 32` pushes the drop
is empty, so this is the maximum of all `k` pushed values, and for `k = 0`
it is bottom; for `k > 32` the shared cursor has wrapped and only the last
32 values influence the reduction. -/
theorem ring_sampler_reduce_recent_max {α : Type} [LinearOrder α] [OrderBot α]
    (id nm : String) (cbs : List (CB α)) (kind : MeasKind) (ch : Nat) (hch : ch < 2) :
    reduceBuf (bufAt ((volmeterPushSeq (mkFreshSource id nm) cbs).bufs kind) ch) =
      listSup ((cbs.map (fun c => c.sel kind ch)).drop (cbs.length - circBufSamples)) := by
  obtain ⟨hbuf, _⟩ := volmeterPushSeq_state cbs (mkFreshSource id nm)
    (mkFreshSource_wf id nm) kind ch hch
  rw [hbuf, bufAt_mkFreshSource, reduce_pushList_fresh, List.length_map]

theorem ring_sampler_reduce_recent_max_witness :
    reduceBuf (bufAt ((volmeterPushSeq (mkFreshSource "a" "sourceA" : Source (WithBot ℤ))
        [⟨fun _ => 3, fun _ => 4, fun _ => 5⟩, ⟨fun _ => 9, fun _ => 1, fun _ => 2⟩]).bufs
        MeasKind.magnitude) 0) =
      listSup ((([⟨fun _ => 3, fun _ => 4, fun _ => 5⟩,
          ⟨fun _ => 9, fun _ => 1, fun _ => 2⟩] : List (CB (WithBot ℤ))).map
            (fun c => c.sel MeasKind.magnitude 0)).drop
        (([⟨fun _ => 3, fun _ => 4, fun _ => 5⟩,
          ⟨fun _ => 9, fun _ => 1, fun _ => 2⟩] : List (CB (WithBot ℤ))).length -
          circBufSamples)) :=
  ring_sampler_reduce_recent_max "a" "sourceA" _ MeasKind.magnitude 0 (by decide)

theorem lookupSrc_append {α : Type} (l1 l2 : List (String × Source α)) (id : String) :
    lookupSrc (l1 ++ l2) id =
      match lookupSrc l1 id with
      | some s => some s
      | none => lookupSrc l2 id := by
  induction l1 with
  | nil => rfl
  | cons q rest ih =>
      obtain ⟨k, s⟩ := q
      by_cases hk : k = id <;> simp [lookupSrc, hk, ih]

theorem lookupSrc_filter_seen {α : Type} (l : List (String × Source α))
    (seen : List String) (id : String) :
    lookupSrc (l.filter (fun q => decide (q.1 ∈ seen))) id =
      if id ∈ seen then lookupSrc l id else none := by
  induction l with
  | nil => simp [lookupSrc]
  | cons q rest ih =>
      obtain ⟨k, s⟩ := q
      by_cases hk : k = id
      · subst hk
        by_cases hp : k ∈ seen <;> simp [lookupSrc, hp, ih]
      · by_cases hp : k ∈ seen <;> simp [lookupSrc, hk, hp, ih]

theorem lookupSrc_isSome_iff {α : Type} (l : List (String × Source α)) (id : String) :
    (lookupSrc l id).isSome = true ↔ id ∈ l.map Prod.fst := by
  induction l with
  | nil => simp [lookupSrc]
  | cons q rest ih =>
      obtain ⟨k, s⟩ := q
      by_cases hk : k = id
      · subst hk
        simp [lookupSrc]
      · show (if k = id then some s else lookupSrc rest id).isSome = true ↔ _
        rw [if_neg hk, ih, List.map_cons]
        constructor
        · exact fun h => List.mem_cons_of_mem _ h
        · intro h
          rcases List.mem_cons.mp h with h1 | h1
          · cases hk h1.symm
          · exact h1

theorem enumSourcesCB_of_seen {α : Type} [LinearOrder α] [OrderBot α]
    {st : CState α} {o : EnumSource} (h : o.id ∈ st.seen) :
    enumSourcesCB st o = st := by
  unfold enumSourcesCB
  rw [if_pos h]

theorem enumSourcesCB_seen {α : Type} [LinearOrder α] [OrderBot α]
    (st : CState α) (o : EnumSource) :
    (enumSourcesCB st o).seen = if o.id ∈ st.seen then st.seen else o.id :: st.seen := by
  unfold enumSourcesCB
  by_cases h : o.id ∈ st.seen
  · rw [if_pos h, if_pos h]
  · rw [if_neg h, if_neg h]
    cases hl : lookupSrc st.sources o.id
    · cases hc : o.createOk <;> cases ha : o.attachOk <;> simp [hl, hc, ha]
    · simp [hl]

theorem enumSourcesCB_sources {α : Type} [LinearOrder α] [OrderBot α]
    (st : CState α) (o : EnumSource) :
    (enumSourcesCB st o).sources =
      if o.id ∈ st.seen then st.sources
      else match lookupSrc st.sources o.id with
        | some _ => st.sources
        | none =>
            if o.createOk = true ∧ o.attachOk = true then
              st.sources ++ [(o.id, mkFreshSource o.id o.name)]
            else st.sources := by
  unfold enumSourcesCB
  by_cases h : o.id ∈ st.seen
  · rw [if_pos h, if_pos h]
  · rw [if_neg h, if_neg h]
    cases hl : lookupSrc st.sources o.id
    · cases hc : o.createOk <;> cases ha : o.attachOk <;> simp [hl, hc, ha]
    · simp [hl]

theorem enumSourcesCB_emitted {α : Type} [LinearOrder α] [OrderBot α]
    (st : CState α) (o : EnumSource) :
    (enumSourcesCB st o).emitted =
      if o.id ∈ st.seen then st.emitted
      else match lookupSrc st.sources o.id with
        | some src => st.emitted ++ summarizeSource src
        | none => st.emitted := by
  unfold enumSourcesCB
  by_cases h : o.id ∈ st.seen
  · rw [if_pos h, if_pos h]
  · rw [if_neg h, if_neg h]
    cases hl : lookupSrc st.sources o.id
    · cases hc : o.createOk <;> cases ha : o.attachOk <;> simp [hl, hc, ha]
    · simp [hl]

theorem foldl_enumSourcesCB_seen {α : Type} [LinearOrder α] [OrderBot α]
    (E : List EnumSource) : ∀ (st : CState α) (id : String),
    id ∈ (E.foldl enumSourcesCB st).seen ↔
      id ∈ st.seen ∨ id ∈ E.map EnumSource.id := by
  induction E with
  | nil => intro st id; simp
  | cons o E ih =>
      intro st id
      show id ∈ (E.foldl enumSourcesCB (enumSourcesCB st o)).seen ↔ _
      rw [ih (enumSourcesCB st o) id, enumSourcesCB_seen]
      by_cases h : o.id ∈ st.seen
      · rw [if_pos h]
        simp only [List.map_cons, List.mem_cons]
        constructor
        · rintro (h1 | h1)
          · exact Or.inl h1
          · exact Or.inr (Or.inr h1)
        · rintro (h1 | rfl | h1)
          · exact Or.inl h1
          · exact Or.inl h
          · exact Or.inr h1
      · rw [if_neg h]
        simp only [List.mem_cons, List.map_cons]
        tauto

/-- Characterization of the registry lookup after folding one enumeration:
an id already seen keeps its pre-fold entry; otherwise the first enumerated
entity with that id decides the result — an existing entry is kept
unchanged, a missing one is created exactly when the engine allows both the
volmeter creation and the attach. -/
theorem foldl_enumSourcesCB_lookup {α : Type} [LinearOrder α] [OrderBot α]
    (E : List EnumSource) : ∀ (st : CState α) (id : String),
    lookupSrc (E.foldl enumSourcesCB st).sources id =
      if id ∈ st.seen then lookupSrc st.sources id
      else match E.find? (fun o => o.id == id) with
        | none => lookupSrc st.sources id
        | some o =>
            match lookupSrc st.sources id with
            | some s => some s
            | none =>
                if o.createOk = true ∧ o.attachOk = true then
                  some (mkFreshSource o.id o.name)
                else none := by
  induction E with
  | nil =>
      intro st id
      by_cases h : id ∈ st.seen <;> simp [h]
  | cons o E ih =>
      intro st id
      show lookupSrc (E.foldl enumSourcesCB (enumSourcesCB st o)).sources id = _
      rw [ih (enumSourcesCB st o) id]
      by_cases hseen : o.id ∈ st.seen
      · rw [enumSourcesCB_of_seen hseen]
        by_cases hid : id ∈ st.seen
        · rw [if_pos hid, if_pos hid]
        · rw [if_neg hid, if_neg hid]
          have hne : (o.id == id) = false := by
            by_cases h2 : o.id = id
            · subst h2; cases hid hseen
            · simp [h2]
          rw [List.find?_cons_of_neg _ (by simp [hne])]
      · have hseen2 : (enumSourcesCB st o).seen = o.id :: st.seen := by
          rw [enumSourcesCB_seen, if_neg hseen]
        by_cases hoid : o.id = id
        · subst hoid
          have hmem : o.id ∈ (enumSourcesCB st o).seen := by
            rw [hseen2]; exact List.mem_cons_self _ _
          rw [if_pos hmem, if_neg hseen,
            List.find?_cons_of_pos _ (by simp)]
          rw [enumSourcesCB_sources, if_neg hseen]
          cases hl : lookupSrc st.sources o.id
          · by_cases hok : o.createOk = true ∧ o.attachOk = true
            · rw [if_pos hok]
              simp only
              rw [if_pos hok, lookupSrc_append, hl]
              simp [lookupSrc]
            · rw [if_neg hok]
              simp only
              rw [if_neg hok, hl]
          · simp [hl]
        · have hmem : (id ∈ (enumSourcesCB st o).seen) ↔ id ∈ st.seen := by
            rw [hseen2, List.mem_cons]
            constructor
            · rintro (h2 | h2)
              · cases hoid h2.symm
              · exact h2
            · exact Or.inr
          have hsrc : lookupSrc (enumSourcesCB st o).sources id =
              lookupSrc st.sources id := by
            rw [enumSourcesCB_sources]
            by_cases h2 : o.id ∈ st.seen
            · rw [if_pos h2]
            · rw [if_neg h2]
              cases hl : lookupSrc st.sources o.id
              · by_cases hok : o.createOk = true ∧ o.attachOk = true
                · rw [if_pos hok, lookupSrc_append]
                  cases hl2 : lookupSrc st.sources id
                  · simp [lookupSrc, hoid]
                  · rfl
                · rw [if_neg hok]
              · rfl
          by_cases hid : id ∈ st.seen
          · rw [if_pos (hmem.mpr hid), if_pos hid, hsrc]
          · rw [if_neg (fun h2 => hid (hmem.mp h2)), if_neg hid,
              List.find?_cons_of_neg _ (by simp [hoid]), hsrc]

/-- Master characterization of the registry after one full reconciliation
pass: the entry for `id` survives (or is created) exactly as decided by the
first enumerated entity carrying `id`. -/
theorem reconcileSources_lookup {α : Type} [LinearOrder α] [OrderBot α]
    (R : List (String × Source α)) (E : List EnumSource) (id : String) :
    lookupSrc (reconcileSources R E).sources id =
      match E.find? (fun o => o.id == id) with
      | none => none
      | some o =>
          match lookupSrc R id with
          | some s => some s
          | none =>
              if o.createOk = true ∧ o.attachOk = true then
                some (mkFreshSource o.id o.name)
              else none := by
  have hfold := foldl_enumSourcesCB_lookup E (⟨[], R, []⟩ : CState α) id
  rw [if_neg (by simp : ¬ id ∈ (⟨[], R, []⟩ : CState α).seen)] at hfold
  show lookupSrc ((E.foldl enumSourcesCB (⟨[], R, []⟩ : CState α)).sources.filter
      (fun q => decide (q.1 ∈ (E.foldl enumSourcesCB (⟨[], R, []⟩ : CState α)).seen))) id = _
  rw [lookupSrc_filter_seen, hfold]
  have hseen : id ∈ (E.foldl enumSourcesCB (⟨[], R, []⟩ : CState α)).seen ↔
      id ∈ E.map EnumSource.id := by
    rw [foldl_enumSourcesCB_seen]
    simp
  cases hf : E.find? (fun o => o.id == id) with
  | none =>
      have hnot : ¬ id ∈ E.map EnumSource.id := by
        rw [List.mem_map]
        rintro ⟨o, ho, rfl⟩
        have := List.find?_eq_none.mp hf o ho
        simp at this
      rw [if_neg (fun h => hnot (hseen.mp h))]
  | some o =>
      have hmem : id ∈ E.map EnumSource.id := by
        have h1 := List.mem_of_find?_eq_some hf
        have h2 := List.find?_some hf
        exact List.mem_map.mpr ⟨o, h1, by simpa using h2⟩
      rw [if_pos (hseen.mpr hmem)]

/-- C1: for every sequence of enumerations, provided the engine accepts the
volmeter creation and attach for every entity of the final enumeration, the
registry after reconciling the final enumeration holds exactly the
identifiers present in that enumeration — independent of the length of the
sequence and of the registry contents before it. -/
theorem registry_matches_last_enumeration {α : Type} [LinearOrder α] [OrderBot α]
    (R : List (String × Source α)) (Es : List (List EnumSource)) (E : List EnumSource)
    (hok : ∀ o ∈ E, o.createOk = true ∧ o.attachOk = true) (id : String) :
    (lookupSrc (reconcileSeq R (Es ++ [E])) id).isSome = true ↔
      id ∈ E.map EnumSource.id := by
  have hstep : reconcileSeq R (Es ++ [E]) =
      (reconcileSources (reconcileSeq R Es) E).sources := by
    unfold reconcileSeq
    rw [List.foldl_append]
    rfl
  rw [hstep, reconcileSources_lookup]
  cases hf : E.find? (fun o => o.id == id) with
  | none =>
      simp only [Option.isSome_none]
      constructor
      · intro h; cases h
      · intro h
        rcases List.mem_map.mp h with ⟨o, ho, rfl⟩
        have := List.find?_eq_none.mp hf o ho
        simp at this
  | some o =>
      have hmem : id ∈ E.map EnumSource.id := by
        have h1 := List.mem_of_find?_eq_some hf
        have h2 := List.find?_some hf
        exact List.mem_map.mpr ⟨o, h1, by simpa using h2⟩
      have hoko := hok o (List.mem_of_find?_eq_some hf)
      cases hl : lookupSrc (reconcileSeq R Es) id
      · simp [hoko, hmem]
      · simp [hmem]

theorem registry_matches_last_enumeration_witness :
    (lookupSrc (reconcileSeq ([] : List (String × Source (WithBot ℤ)))
        [[⟨"a", "A", true, true⟩],
         [⟨"b", "B", true, true⟩, ⟨"c", "C", true, true⟩]]) "b").isSome = true ↔
      "b" ∈ ([⟨"b", "B", true, true⟩, ⟨"c", "C", true, true⟩] :
        List EnumSource).map EnumSource.id :=
  registry_matches_last_enumeration [] [[⟨"a", "A", true, true⟩]]
    [⟨"b", "B", true, true⟩, ⟨"c", "C", true, true⟩] (by decide) "b"

/-- Keys and stored ids agree (the code only ever stores a source under its
own id). -/
def keysMatch {α : Type} (l : List (String × Source α)) : Prop :=
  ∀ q ∈ l, q.2.ID = q.1

theorem lookupSrc_ID {α : Type} {l : List (String × Source α)} (hid : keysMatch l)
    {id : String} {s : Source α} (h : lookupSrc l id = some s) : s.ID = id := by
  induction l with
  | nil => cases h
  | cons q rest ih =>
      obtain ⟨k, t⟩ := q
      by_cases hk : k = id
      · subst hk
        have : some t = some s := by
          rw [← h]
          show _ = lookupSrc ((k, t) :: rest) k
          simp [lookupSrc]
        cases this
        exact hid (k, s) (List.mem_cons_self _ _)
      · have h2 : lookupSrc rest id = some s := by
          rw [← h]
          show _ = (if k = id then some t else lookupSrc rest id)
          rw [if_neg hk]
        exact ih (fun q hq => hid q (List.mem_cons_of_mem _ hq)) h2

theorem keysMatch_enumSourcesCB {α : Type} [LinearOrder α] [OrderBot α]
    {st : CState α} (hid : keysMatch st.sources) (o : EnumSource) :
    keysMatch (enumSourcesCB st o).sources := by
  rw [enumSourcesCB_sources]
  by_cases h : o.id ∈ st.seen
  · rw [if_pos h]; exact hid
  · rw [if_neg h]
    cases hl : lookupSrc st.sources o.id
    · by_cases hok : o.createOk = true ∧ o.attachOk = true
      · rw [if_pos hok]
        intro q hq
        rcases List.mem_append.mp hq with h2 | h2
        · exact hid q h2
        · rcases List.mem_singleton.mp h2 with rfl
          rfl
      · rw [if_neg hok]; exact hid
    · exact hid

theorem keysMatch_foldl {α : Type} [LinearOrder α] [OrderBot α] (E : List EnumSource) :
    ∀ (st : CState α), keysMatch st.sources →
      keysMatch (E.foldl enumSourcesCB st).sources := by
  induction E with
  | nil => intro st hid; exact hid
  | cons o E ih =>
      intro st hid
      exact ih (enumSourcesCB st o) (keysMatch_enumSourcesCB hid o)

theorem keysMatch_reconcile {α : Type} [LinearOrder α] [OrderBot α]
    {R : List (String × Source α)} (hid : keysMatch R) (E : List EnumSource) :
    keysMatch (reconcileSources R E).sources := by
  intro q hq
  have hq2 : q ∈ (E.foldl enumSourcesCB (⟨[], R, []⟩ : CState α)).sources :=
    List.mem_of_mem_filter hq
  exact keysMatch_foldl E ⟨[], R, []⟩ hid q hq2

theorem samplesFor_append {α : Type} (id : String) (l1 l2 : List (Sample α)) :
    samplesFor id (l1 ++ l2) = samplesFor id l1 ++ samplesFor id l2 :=
  List.filter_append _ _

theorem summarizeSource_head {α : Type} [LinearOrder α] [OrderBot α]
    (src : Source α) : ∀ s ∈ summarizeSource src,
    s.labelValues.head? = some src.ID := by
  intro s hs
  unfold summarizeSource at hs
  rcases List.mem_flatMap.mp hs with ⟨chn, _, hmem⟩
  simp only [List.mem_cons, List.not_mem_nil, or_false] at hmem
  rcases hmem with rfl | rfl | rfl <;> rfl

theorem samplesFor_summarize {α : Type} [LinearOrder α] [OrderBot α]
    (src : Source α) (id : String) :
    samplesFor id (summarizeSource src) =
      if src.ID = id then summarizeSource src else [] := by
  by_cases h : src.ID = id
  · rw [if_pos h]
    refine List.filter_eq_self.mpr fun s hs => ?_
    rw [decide_eq_true_iff, summarizeSource_head src s hs, h]
  · rw [if_neg h]
    refine List.filter_eq_nil_iff.mpr fun s hs => ?_
    rw [summarizeSource_head src s hs]
    simp [h]

/-- During one enumeration fold, an id that is either unknown to the
registry or already seen contributes no further summary samples. -/
theorem foldl_no_emit {α : Type} [LinearOrder α] [OrderBot α] (E : List EnumSource) :
    ∀ (st : CState α) (id : String), keysMatch st.sources →
    (lookupSrc st.sources id = none ∨ id ∈ st.seen) →
    samplesFor id ((E.foldl enumSourcesCB st).emitted) = samplesFor id st.emitted := by
  induction E with
  | nil => intro st id _ _; rfl
  | cons o E ih =>
      intro st id hid hcond
      show samplesFor id ((E.foldl enumSourcesCB (enumSourcesCB st o)).emitted) = _
      have hid1 := keysMatch_enumSourcesCB hid o
      have hcond1 : lookupSrc (enumSourcesCB st o).sources id = none ∨
          id ∈ (enumSourcesCB st o).seen := by
        by_cases h : o.id ∈ st.seen
        · rw [enumSourcesCB_of_seen h]; exact hcond
        · rw [enumSourcesCB_sources, enumSourcesCB_seen, if_neg h, if_neg h]
          rcases hcond with hnone | hseen
          · cases hl : lookupSrc st.sources o.id
            · by_cases hok : o.createOk = true ∧ o.attachOk = true
              · rw [if_pos hok]
                by_cases hoid : o.id = id
                · exact Or.inr (by rw [hoid]; exact List.mem_cons_self _ _)
                · refine Or.inl ?_
                  rw [lookupSrc_append, hnone]
                  simp [lookupSrc, hoid]
              · rw [if_neg hok]; exact Or.inl hnone
            · exact Or.inl hnone
          · exact Or.inr (List.mem_cons_of_mem _ hseen)
      rw [ih (enumSourcesCB st o) id hid1 hcond1]
      rw [enumSourcesCB_emitted]
      by_cases h : o.id ∈ st.seen
      · rw [if_pos h]
      · rw [if_neg h]
        cases hl : lookupSrc st.sources o.id with
        | none => rfl
        | some src0 =>
            rw [samplesFor_append, samplesFor_summarize]
            have hID : src0.ID = o.id := lookupSrc_ID hid hl
            by_cases hoid : o.id = id
            · subst hoid
              rcases hcond with hnone | hseen
              · rw [hnone] at hl; cases hl
              · cases h hseen
            · rw [if_neg (by rw [hID]; exact hoid)]
              simp

/-- During one enumeration fold, an id present in the registry before the
fold contributes its accumulated summaries exactly once if it is
enumerated (and not yet seen), and nothing otherwise; its registry entry,
and hence its samplers and cursor, are what they were before the fold. -/
theorem foldl_emit_once {α : Type} [LinearOrder α] [OrderBot α] (E : List EnumSource) :
    ∀ (st : CState α) (id : String) (src : Source α), keysMatch st.sources →
    lookupSrc st.sources id = some src →
    samplesFor id ((E.foldl enumSourcesCB st).emitted) =
      samplesFor id st.emitted ++
        (if id ∈ st.seen then []
         else if id ∈ E.map EnumSource.id then summarizeSource src else []) := by
  induction E with
  | nil =>
      intro st id src _ _
      by_cases h : id ∈ st.seen <;> simp [h]
  | cons o E ih =>
      intro st id src hid hlk
      show samplesFor id ((E.foldl enumSourcesCB (enumSourcesCB st o)).emitted) = _
      by_cases h : o.id ∈ st.seen
      · rw [enumSourcesCB_of_seen h]
        rw [ih st id src hid hlk]
        by_cases hid2 : id ∈ st.seen
        · rw [if_pos hid2, if_pos hid2]
        · rw [if_neg hid2, if_neg hid2]
          have hoid : o.id ≠ id := fun h2 => hid2 (h2 ▸ h)
          have : (id ∈ (o :: E).map EnumSource.id) ↔ id ∈ E.map EnumSource.id := by
            rw [List.map_cons, List.mem_cons]
            constructor
            · rintro (h2 | h2)
              · cases hoid h2.symm
              · exact h2
            · exact Or.inr
          by_cases hmem : id ∈ E.map EnumSource.id
          · rw [if_pos hmem, if_pos (this.mpr hmem)]
          · rw [if_neg hmem, if_neg (fun h2 => hmem (this.mp h2))]
      · by_cases hoid : o.id = id
        · subst hoid
          have hemit : (enumSourcesCB st o).emitted =
              st.emitted ++ summarizeSource src := by
            rw [enumSourcesCB_emitted, if_neg h, hlk]
          have hsrc1 : (enumSourcesCB st o).sources = st.sources := by
            rw [enumSourcesCB_sources, if_neg h, hlk]
          have hseen1 : o.id ∈ (enumSourcesCB st o).seen := by
            rw [enumSourcesCB_seen, if_neg h]
            exact List.mem_cons_self _ _
          rw [foldl_no_emit E (enumSourcesCB st o) o.id
            (by rw [hsrc1]; exact hid) (Or.inr hseen1)]
          rw [hemit, samplesFor_append, samplesFor_summarize,
            if_pos (lookupSrc_ID hid hlk), if_neg h,
            if_pos (by rw [List.map_cons]; exact List.mem_cons_self _ _)]
        · have hsrc1 : lookupSrc (enumSourcesCB st o).sources id =
              some src := by
            rw [enumSourcesCB_sources]
            by_cases h2 : o.id ∈ st.seen
            · rw [if_pos h2]; exact hlk
            · rw [if_neg h2]
              cases hl : lookupSrc st.sources o.id
              · by_cases hok : o.createOk = true ∧ o.attachOk = true
                · rw [if_pos hok, lookupSrc_append, hlk]
                · rw [if_neg hok]; exact hlk
              · exact hlk
          have hseen1 : (id ∈ (enumSourcesCB st o).seen) ↔ id ∈ st.seen := by
            rw [enumSourcesCB_seen, if_neg h, List.mem_cons]
            constructor
            · rintro (h2 | h2)
              · cases hoid h2.symm
              · exact h2
            · exact Or.inr
          rw [ih (enumSourcesCB st o) id src (keysMatch_enumSourcesCB hid o) hsrc1]
          have hemit1 : samplesFor id (enumSourcesCB st o).emitted =
              samplesFor id st.emitted := by
            rw [enumSourcesCB_emitted, if_neg h]
            cases hl : lookupSrc st.sources o.id with
            | none => rfl
            | some src0 =>
                rw [samplesFor_append, samplesFor_summarize,
                  if_neg (by rw [lookupSrc_ID hid hl]; exact hoid)]
                simp
          rw [hemit1]
          have hmapiff : (id ∈ (o :: E).map EnumSource.id) ↔
              id ∈ E.map EnumSource.id := by
            rw [List.map_cons, List.mem_cons]
            constructor
            · rintro (h2 | h2)
              · cases hoid h2.symm
              · exact h2
            · exact Or.inr
          by_cases hid2 : id ∈ st.seen
          · rw [if_pos (hseen1.mpr hid2), if_pos hid2]
          · rw [if_neg (fun h2 => hid2 (hseen1.mp h2)), if_neg hid2]
            by_cases hmem : id ∈ E.map EnumSource.id
            · rw [if_pos hmem, if_pos (hmapiff.mpr hmem)]
            · rw [if_neg hmem, if_neg (fun h2 => hmem (hmapiff.mp h2))]

/-- Summary emission of one reconciliation pass for an id already in the
registry. -/
theorem reconcile_emitted_of_present {α : Type} [LinearOrder α] [OrderBot α]
    {R : List (String × Source α)} {id : String} {src : Source α}
    (hid : keysMatch R) (hlk : lookupSrc R id = some src) (E : List EnumSource) :
    samplesFor id (reconcileSources R E).emitted =
      if id ∈ E.map EnumSource.id then summarizeSource src else [] := by
  show samplesFor id ((E.foldl enumSourcesCB (⟨[], R, []⟩ : CState α)).emitted) = _
  rw [foldl_emit_once E ⟨[], R, []⟩ id src hid hlk]
  rw [if_neg (by simp : ¬ id ∈ (⟨[], R, []⟩ : CState α).seen)]
  rfl

/-- One reconciliation pass emits no summary for an id absent from the
registry at the start of the pass (a newly created source stays silent). -/
theorem reconcile_emitted_of_absent {α : Type} [LinearOrder α] [OrderBot α]
    {R : List (String × Source α)} {id : String}
    (hid : keysMatch R) (hlk : lookupSrc R id = none) (E : List EnumSource) :
    samplesFor id (reconcileSources R E).emitted = [] := by
  show samplesFor id ((E.foldl enumSourcesCB (⟨[], R, []⟩ : CState α)).emitted) = _
  rw [foldl_no_emit E ⟨[], R, []⟩ id hid (Or.inl hlk)]
  rfl

/-- C3: a source whose id is absent from the registry and is created during
the reconciliation of an enumeration contributes no magnitude / peak /
input-peak summary sample during the emission phase of that same pass; if
its id is enumerated again on the next pass, it contributes, for each of its
two channels, one sample of each of the three kinds. -/
theorem new_source_emits_only_second_pass {α : Type} [LinearOrder α] [OrderBot α]
    (R : List (String × Source α)) (E E2 : List EnumSource) (id : String)
    (o : EnumSource)
    (hid : keysMatch R)
    (hlk : lookupSrc R id = none)
    (hf : E.find? (fun x => x.id == id) = some o)
    (hok : o.createOk = true ∧ o.attachOk = true)
    (h2 : id ∈ E2.map EnumSource.id) :
    samplesFor id (reconcileSources R E).emitted = [] ∧
    samplesFor id (reconcileSources (reconcileSources R E).sources E2).emitted =
      summarizeSource (mkFreshSource id o.name : Source α) ∧
    (summarizeSource (mkFreshSource id o.name : Source α)).map
        (fun s => (s.desc, s.labelValues)) =
      [(MagnitudePerSourceChannel, [id, o.name, "0"]),
       (PeakPerSourceChannel, [id, o.name, "0"]),
       (InputPeakPerSourceChannel, [id, o.name, "0"]),
       (MagnitudePerSourceChannel, [id, o.name, "1"]),
       (PeakPerSourceChannel, [id, o.name, "1"]),
       (InputPeakPerSourceChannel, [id, o.name, "1"])] := by
  have hoid : o.id = id := by
    have h3 := List.find?_some hf
    simpa using h3
  refine ⟨reconcile_emitted_of_absent hid hlk E, ?_, ?_⟩
  · have hcreated : lookupSrc (reconcileSources R E).sources id =
        some (mkFreshSource id o.name) := by
      rw [reconcileSources_lookup, hf]
      simp only [hlk]
      rw [if_pos hok, hoid]
    rw [reconcile_emitted_of_present (keysMatch_reconcile hid E) hcreated E2,
      if_pos h2]
  · rfl

theorem new_source_emits_only_second_pass_witness :
    samplesFor "n" (reconcileSources ([] : List (String × Source (WithBot ℤ)))
        [⟨"n", "N", true, true⟩]).emitted = [] ∧
    samplesFor "n" (reconcileSources (reconcileSources
        ([] : List (String × Source (WithBot ℤ))) [⟨"n", "N", true, true⟩]).sources
        [⟨"n", "N", true, true⟩]).emitted =
      summarizeSource (mkFreshSource "n" "N" : Source (WithBot ℤ)) ∧
    (summarizeSource (mkFreshSource "n" "N" : Source (WithBot ℤ))).map
        (fun s => (s.desc, s.labelValues)) =
      [(MagnitudePerSourceChannel, ["n", "N", "0"]),
       (PeakPerSourceChannel, ["n", "N", "0"]),
       (InputPeakPerSourceChannel, ["n", "N", "0"]),
       (MagnitudePerSourceChannel, ["n", "N", "1"]),
       (PeakPerSourceChannel, ["n", "N", "1"]),
       (InputPeakPerSourceChannel, ["n", "N", "1"])] :=
  new_source_emits_only_second_pass [] [⟨"n", "N", true, true⟩]
    [⟨"n", "N", true, true⟩] "n" ⟨"n", "N", true, true⟩
    (by intro q hq; cases hq) (by rfl) (by rfl) (by decide) (by decide)

/-- C9: for a registered source enumerated in a pass, the pass leaves its
registry entry — samplers and write cursor included — exactly unchanged, and
reducing again on a following pass with no intervening push emits the very
same summary samples. -/
theorem reduce_idempotent_read_only {α : Type} [LinearOrder α] [OrderBot α]
    (R : List (String × Source α)) (E E2 : List EnumSource) (id : String)
    (src : Source α)
    (hid : keysMatch R)
    (hlk : lookupSrc R id = some src)
    (h1 : id ∈ E.map EnumSource.id)
    (h2 : id ∈ E2.map EnumSource.id) :
    lookupSrc (reconcileSources R E).sources id = some src ∧
    samplesFor id (reconcileSources R E).emitted = summarizeSource src ∧
    samplesFor id (reconcileSources (reconcileSources R E).sources E2).emitted =
      summarizeSource src := by
  have hkept : lookupSrc (reconcileSources R E).sources id = some src := by
    rw [reconcileSources_lookup]
    rcases List.mem_map.mp h1 with ⟨o, ho, hoid⟩
    cases hf : E.find? (fun x => x.id == id) with
    | none =>
        have := List.find?_eq_none.mp hf o ho
        rw [hoid] at this
        simp at this
    | some o2 => simp [hlk]
  refine ⟨hkept, ?_, ?_⟩
  · rw [reconcile_emitted_of_present hid hlk E, if_pos h1]
  · rw [reconcile_emitted_of_present (keysMatch_reconcile hid E) hkept E2,
      if_pos h2]

theorem reduce_idempotent_read_only_witness :
    lookupSrc (reconcileSources [("a", mkFreshSource "a" "A")]
        [⟨"a", "A", true, true⟩] : CState (WithBot ℤ)).sources "a" =
      some (mkFreshSource "a" "A") ∧
    samplesFor "a" (reconcileSources [("a", mkFreshSource "a" "A")]
        [⟨"a", "A", true, true⟩] : CState (WithBot ℤ)).emitted =
      summarizeSource (mkFreshSource "a" "A") ∧
    samplesFor "a" (reconcileSources (reconcileSources
        [("a", mkFreshSource "a" "A")] [⟨"a", "A", true, true⟩] :
          CState (WithBot ℤ)).sources [⟨"a", "A", true, true⟩]).emitted =
      summarizeSource (mkFreshSource "a" "A") :=
  reduce_idempotent_read_only [("a", mkFreshSource "a" "A")]
    [⟨"a", "A", true, true⟩] [⟨"a", "A", true, true⟩] "a" (mkFreshSource "a" "A")
    (by unfold keysMatch; decide) (by decide) (by decide) (by decide)

/-- C8: when the engine refuses the volmeter creation (or the attach) for a
newly seen id, the pass completes without inserting that id, every other
enumerated id whose creation the engine accepts is still present after the
pass, and the failed id is created on a later pass in which it is enumerated
with the engine accepting. -/
theorem creation_failure_skips_and_retries {α : Type} [LinearOrder α] [OrderBot α]
    (R : List (String × Source α)) (E E2 : List EnumSource) (bad id2 : String)
    (oGood o2 : EnumSource)
    (hbad : ∀ o ∈ E, o.id = bad → ¬(o.createOk = true ∧ o.attachOk = true))
    (hlkb : lookupSrc R bad = none)
    (hgood : E.find? (fun o => o.id == id2) = some oGood)
    (hgok : oGood.createOk = true ∧ oGood.attachOk = true)
    (hf2 : E2.find? (fun o => o.id == bad) = some o2)
    (h2ok : o2.createOk = true ∧ o2.attachOk = true) :
    lookupSrc (reconcileSources R E).sources bad = none ∧
    (lookupSrc (reconcileSources R E).sources id2).isSome = true ∧
    lookupSrc (reconcileSources (reconcileSources R E).sources E2).sources bad =
      some (mkFreshSource bad o2.name) := by
  have hskip : lookupSrc (reconcileSources R E).sources bad = none := by
    rw [reconcileSources_lookup]
    cases hf : E.find? (fun o => o.id == bad) with
    | none => rfl
    | some o =>
        have hoid : o.id = bad := by simpa using List.find?_some hf
        have hnotok := hbad o (List.mem_of_find?_eq_some hf) hoid
        simp only [hlkb]
        rw [if_neg hnotok]
  refine ⟨hskip, ?_, ?_⟩
  · rw [reconcileSources_lookup, hgood]
    cases hl : lookupSrc R id2
    · show (if oGood.createOk = true ∧ oGood.attachOk = true then
          some (mkFreshSource oGood.id oGood.name) else none).isSome = true
      rw [if_pos hgok]
      rfl
    · rfl
  · rw [reconcileSources_lookup, hf2]
    have hoid2 : o2.id = bad := by simpa using List.find?_some hf2
    simp only [hskip]
    show (if o2.createOk = true ∧ o2.attachOk = true then
        some (mkFreshSource o2.id o2.name) else none) =
      some (mkFreshSource bad o2.name)
    rw [if_pos h2ok, hoid2]

theorem creation_failure_skips_and_retries_witness :
    lookupSrc (reconcileSources ([] : List (String × Source (WithBot ℤ)))
        [⟨"x", "X", false, true⟩, ⟨"y", "Y", true, true⟩]).sources "x" = none ∧
    (lookupSrc (reconcileSources ([] : List (String × Source (WithBot ℤ)))
        [⟨"x", "X", false, true⟩, ⟨"y", "Y", true, true⟩]).sources "y").isSome = true ∧
    lookupSrc (reconcileSources (reconcileSources
        ([] : List (String × Source (WithBot ℤ)))
        [⟨"x", "X", false, true⟩, ⟨"y", "Y", true, true⟩]).sources
        [⟨"x", "X", true, true⟩]).sources "x" =
      some (mkFreshSource "x" "X") :=
  creation_failure_skips_and_retries []
    [⟨"x", "X", false, true⟩, ⟨"y", "Y", true, true⟩] [⟨"x", "X", true, true⟩]
    "x" "y" ⟨"y", "Y", true, true⟩ ⟨"x", "X", true, true⟩
    (by decide) (by rfl) (by rfl) (by decide) (by rfl) (by decide)

theorem lookupSrc_map_push {α : Type} (l : List (String × Source α)) (id : String)
    (m p ip : Nat → α) (id2 : String) :
    lookupSrc (l.map (fun q => if q.1 = id then (q.1, volmeterPush q.2 m p ip) else q)) id2 =
      if id2 = id then (lookupSrc l id2).map (fun s => volmeterPush s m p ip)
      else lookupSrc l id2 := by
  induction l with
  | nil => by_cases h : id2 = id <;> simp [lookupSrc, h]
  | cons q rest ih =>
      obtain ⟨k, t⟩ := q
      show lookupSrc ((if k = id then (k, volmeterPush t m p ip) else (k, t)) ::
        rest.map (fun q => if q.1 = id then (q.1, volmeterPush q.2 m p ip) else q)) id2 = _
      by_cases hk : k = id
      · rw [if_pos hk]
        show (if k = id2 then some (volmeterPush t m p ip)
            else lookupSrc (rest.map
              (fun q => if q.1 = id then (q.1, volmeterPush q.2 m p ip) else q)) id2) = _
        by_cases hk2 : k = id2
        · rw [if_pos hk2, if_pos (show id2 = id from hk2 ▸ hk)]
          rw [show lookupSrc ((k, t) :: rest) id2 = some t from by
            show (if k = id2 then some t else lookupSrc rest id2) = some t
            rw [if_pos hk2]]
          rfl
        · rw [if_neg hk2, ih]
          rw [show lookupSrc ((k, t) :: rest) id2 = lookupSrc rest id2 from by
            show (if k = id2 then some t else lookupSrc rest id2) = _
            rw [if_neg hk2]]
      · rw [if_neg hk]
        show (if k = id2 then some t
            else lookupSrc (rest.map
              (fun q => if q.1 = id then (q.1, volmeterPush q.2 m p ip) else q)) id2) = _
        by_cases hk2 : k = id2
        · rw [if_pos hk2]
          have hid2 : ¬(id2 = id) := fun h => hk ((hk2.symm ▸ rfl : k = id2).trans h)
          rw [if_neg hid2]
          rw [show lookupSrc ((k, t) :: rest) id2 = some t from by
            show (if k = id2 then some t else lookupSrc rest id2) = some t
            rw [if_pos hk2]]
        · rw [if_neg hk2, ih]
          rw [show lookupSrc ((k, t) :: rest) id2 = lookupSrc rest id2 from by
            show (if k = id2 then some t else lookupSrc rest id2) = _
            rw [if_neg hk2]]

theorem writeBufsAux_congr {α : Type} (vals vals2 : Nat → α) (pos : Fin circBufSamples)
    (nchan : Nat) (h : ∀ n, n < nchan → vals n = vals2 n) :
    ∀ (bufs : List (Fin circBufSamples → α)) (k : Nat),
    writeBufsAux vals pos nchan k bufs = writeBufsAux vals2 pos nchan k bufs := by
  intro bufs
  induction bufs with
  | nil => intro k; rfl
  | cons b rest ih =>
      intro k
      show (if k < nchan then Function.update b pos (vals k) else b) :: _ =
        (if k < nchan then Function.update b pos (vals2 k) else b) :: _
      rw [ih (k + 1)]
      by_cases hk : k < nchan
      · rw [if_pos hk, if_pos hk, h k hk]
      · rw [if_neg hk, if_neg hk]

theorem lookupSrc_unique_of_nodup {α : Type} :
    ∀ (l : List (String × Source α)) (id : String) (s : Source α),
    (l.map Prod.fst).Nodup → lookupSrc l id = some s →
    ∀ q ∈ l, q.1 = id → q.2 = s := by
  intro l
  induction l with
  | nil => intro id s _ _ q hq; cases hq
  | cons q0 rest ih =>
      intro id s hnd hlk q hq hqid
      obtain ⟨k, t⟩ := q0
      rcases List.mem_cons.mp hq with rfl | hq2
      · have hkid : k = id := hqid
        have h1 : lookupSrc ((k, t) :: rest) id = some t := by
          show (if k = id then some t else lookupSrc rest id) = _
          rw [if_pos hkid]
        rw [h1] at hlk
        cases hlk
        rfl
      · by_cases hk : k = id
        · exfalso
          have hmem : id ∈ rest.map Prod.fst := List.mem_map.mpr ⟨q, hq2, hqid⟩
          rw [List.map_cons, List.nodup_cons] at hnd
          exact hnd.1 (hk ▸ hmem)
        · have hlk2 : lookupSrc rest id = some s := by
            rw [show lookupSrc ((k, t) :: rest) id = lookupSrc rest id from by
              show (if k = id then some t else lookupSrc rest id) = _
              rw [if_neg hk]] at hlk
            exact hlk
          rw [List.map_cons, List.nodup_cons] at hnd
          exact ih id s hnd.2 hlk2 q hq2 hqid

/-- C10: a push callback carrying a registered id overwrites, for every
channel below the fixed channel count and every measurement kind, exactly
the cursor slot of that channel with the supplied value, advances the shared
cursor by one modulo `circBufSamples`, and touches nothing else: all other
registry entries keep their lookup result, all other slots keep their
values, and supplied values at channel indices at or above the channel
count are never read. -/
theorem volmeter_push_frame_effect {α : Type} [Bot α]
    (c : MetricCollector α) (id : String) (cb : CB α) (src : Source α)
    (hnd : (c.sources.map Prod.fst).Nodup)
    (hlk : lookupSrc c.sources id = some src)
    (hwf : src.wf) :
    (∀ id2, id2 ≠ id →
      lookupSrc (mc_volmeter_updated_go c id cb.m cb.p cb.ip).sources id2 =
        lookupSrc c.sources id2) ∧
    lookupSrc (mc_volmeter_updated_go c id cb.m cb.p cb.ip).sources id =
      some (volmeterPush src cb.m cb.p cb.ip) ∧
    ((volmeterPush src cb.m cb.p cb.ip).Pos : Nat) =
      ((src.Pos : Nat) + 1) % circBufSamples ∧
    (∀ (kind : MeasKind) (ch : Nat) (i : Fin circBufSamples),
      bufAt ((volmeterPush src cb.m cb.p cb.ip).bufs kind) ch i =
        if ch < src.Channels ∧ i = src.Pos then cb.sel kind ch
        else bufAt (src.bufs kind) ch i) ∧
    (∀ cb2 : CB α,
      (∀ ch2, ch2 < src.Channels →
        cb.m ch2 = cb2.m ch2 ∧ cb.p ch2 = cb2.p ch2 ∧ cb.ip ch2 = cb2.ip ch2) →
      mc_volmeter_updated_go c id cb.m cb.p cb.ip =
        mc_volmeter_updated_go c id cb2.m cb2.p cb2.ip) := by
  have hgo : mc_volmeter_updated_go c id cb.m cb.p cb.ip =
      ⟨c.sources.map (fun q => if q.1 = id then (q.1, volmeterPush q.2 cb.m cb.p cb.ip)
        else q)⟩ := by
    unfold mc_volmeter_updated_go
    rw [hlk]
  refine ⟨?_, ?_, rfl, ?_, ?_⟩
  · intro id2 hne
    rw [hgo]
    show lookupSrc (c.sources.map _) id2 = _
    rw [lookupSrc_map_push, if_neg hne]
  · rw [hgo]
    show lookupSrc (c.sources.map _) id = _
    rw [lookupSrc_map_push, if_pos rfl, hlk]
    rfl
  · intro kind ch i
    have hlen : (src.bufs kind).length = src.Channels := by
      obtain ⟨hc, h1, h2, h3⟩ := hwf
      cases kind
      · rw [show src.bufs MeasKind.magnitude = src.Magnitude from rfl, h1, hc]
      · rw [show src.bufs MeasKind.peak = src.Peak from rfl, h2, hc]
      · rw [show src.bufs MeasKind.inputPeak = src.InputPeak from rfl, h3, hc]
    rw [volmeterPush_bufs src cb kind, bufAt_writeBufs, hlen]
    by_cases hch : ch < src.Channels
    · rw [if_pos ⟨hch, hch⟩, Function.update_apply]
      by_cases hi : i = src.Pos
      · rw [if_pos hi, if_pos ⟨hch, hi⟩]
      · rw [if_neg hi, if_neg (fun h => hi h.2)]
    · rw [if_neg (fun h => hch h.1), if_neg (fun h => hch h.1)]
  · intro cb2 hagree
    rw [hgo]
    unfold mc_volmeter_updated_go
    rw [hlk]
    show (⟨c.sources.map _⟩ : MetricCollector α) = ⟨c.sources.map _⟩
    have hmap : ∀ q ∈ c.sources,
        (if q.1 = id then (q.1, volmeterPush q.2 cb.m cb.p cb.ip) else q) =
        (if q.1 = id then (q.1, volmeterPush q.2 cb2.m cb2.p cb2.ip) else q) := by
      intro q hq
      by_cases hqid : q.1 = id
      · rw [if_pos hqid, if_pos hqid]
        have hqsrc : q.2 = src := lookupSrc_unique_of_nodup c.sources id src hnd hlk q hq hqid
        subst hqsrc
        have hpush : volmeterPush q.2 cb.m cb.p cb.ip =
            volmeterPush q.2 cb2.m cb2.p cb2.ip := by
          unfold volmeterPush writeBufs
          rw [writeBufsAux_congr cb.m cb2.m q.2.Pos q.2.Channels
                (fun n hn => (hagree n hn).1),
              writeBufsAux_congr cb.p cb2.p q.2.Pos q.2.Channels
                (fun n hn => (hagree n hn).2.1),
              writeBufsAux_congr cb.ip cb2.ip q.2.Pos q.2.Channels
                (fun n hn => (hagree n hn).2.2)]
        rw [hpush]
      · rw [if_neg hqid, if_neg hqid]
    rw [List.map_congr_left hmap]

theorem volmeter_push_frame_effect_witness :
    lookupSrc (mc_volmeter_updated_go
        (⟨[("a", mkFreshSource "a" "A")]⟩ : MetricCollector (WithBot ℤ)) "a"
        (fun _ => 3) (fun _ => 4) (fun _ => 5)).sources "a" =
      some (volmeterPush (mkFreshSource "a" "A") (fun _ => 3) (fun _ => 4)
        (fun _ => 5)) ∧
    bufAt ((volmeterPush (mkFreshSource "a" "A" : Source (WithBot ℤ))
        (fun _ => 3) (fun _ => 4) (fun _ => 5)).bufs MeasKind.magnitude) 0
        ⟨0, by decide⟩ =
      if 0 < (mkFreshSource "a" "A" : Source (WithBot ℤ)).Channels ∧
          (⟨0, by decide⟩ : Fin circBufSamples) =
            (mkFreshSource "a" "A" : Source (WithBot ℤ)).Pos then
        (⟨fun _ => 3, fun _ => 4, fun _ => 5⟩ : CB (WithBot ℤ)).sel
          MeasKind.magnitude 0
      else bufAt ((mkFreshSource "a" "A" : Source (WithBot ℤ)).bufs
        MeasKind.magnitude) 0 ⟨0, by decide⟩ :=
  ⟨(volmeter_push_frame_effect
      (⟨[("a", mkFreshSource "a" "A")]⟩ : MetricCollector (WithBot ℤ)) "a"
      ⟨fun _ => 3, fun _ => 4, fun _ => 5⟩ (mkFreshSource "a" "A")
      (by decide) (by decide) (by unfold Source.wf; decide)).2.1,
   (volmeter_push_frame_effect
      (⟨[("a", mkFreshSource "a" "A")]⟩ : MetricCollector (WithBot ℤ)) "a"
      ⟨fun _ => 3, fun _ => 4, fun _ => 5⟩ (mkFreshSource "a" "A")
      (by decide) (by decide) (by unfold Source.wf; decide)).2.2.2.1
      MeasKind.magnitude 0 ⟨0, by decide⟩⟩

/-- C7: for every encoder entity the emitted series are the same fixed five
descs, and the dimension fields branch on the encoder kind: an audio encoder
reports width 0, height 0 and its engine-supplied sample rate; a video
encoder reports its engine-supplied width and height and sample rate 0. -/
theorem encoder_fixed_series_and_zeroed_fields (e : EnumEncoder) :
    (enumEncodersCB e).map Sample.desc =
      [InfoPerEncoder, ActivePerEncoder, WidthPerEncoder, HeightPerEncoder,
        SampleRatePerEncoder] ∧
    (enumEncodersCB e).map Sample.value =
      [1, obsBoolMetric e.active,
        if e.isAudio then 0 else (e.width : ℚ),
        if e.isAudio then 0 else (e.height : ℚ),
        if e.isAudio then (e.sampleRate : ℚ) else 0] := by
  cases h : e.isAudio <;> simp [enumEncodersCB, h]

/-- C4 (counterexample evaluation): at the spec §8 example output, the
emitted (name, kind) pairs show that `obs_output_frames` — the total frames
sent — is emitted with gauge semantics, while bytes and dropped frames are
counters.  This contradicts the claim (and the repository README, which
documents the total-frames metric as a counter). -/
theorem output_total_frames_emitted_as_gauge :
    (enumOutputsCB
        { id := "rtmp1", name := "rtmp1", displayName := "RTMP", active := true,
          totalBytes := 500, droppedFrames := 2, totalFrames := 10, width := 1920,
          height := 1080, congestion := 1 / 10, connectTimeMs := 250,
          reconnecting := false }).map (fun s => (s.desc.fqName, s.valueType)) =
      [("obs_output_info", .GaugeValue),
       ("obs_output_active", .GaugeValue),
       ("obs_output_bytes_total", .CounterValue),
       ("obs_output_dropped_frames_total", .CounterValue),
       ("obs_output_frames", .GaugeValue),
       ("obs_output_video_width", .GaugeValue),
       ("obs_output_video_height", .GaugeValue),
       ("obs_output_congestion", .GaugeValue),
       ("obs_output_connect_time_seconds", .GaugeValue),
       ("obs_output_reconnecting", .GaugeValue)] := by
  decide

/-- C5 (counterexample evaluation): the metric names emitted for an encoder
entity include `obs_global_active` — the active flag is built with the
global subsystem, not the encoder subsystem — contradicting the claim (and
the repository README, which documents it as `obs_encoder_active`). -/
theorem encoder_active_metric_named_global :
    ((enumEncodersCB
        { id := "aac1", name := "aac1", displayName := "AAC", codec := "aac",
          isAudio := true, active := true, width := 0, height := 0,
          sampleRate := 48000 }).map (fun s => s.desc.fqName) =
      ["obs_encoder_info", "obs_global_active", "obs_encoder_width",
       "obs_encoder_height", "obs_encoder_sample_rate"]) ∧
    ActivePerEncoder.fqName ≠ buildFQName metricNamespace encoderSubsystem "active" := by
  decide

/-- C6: a push callback carrying an identifier with no registry entry
leaves the collector state (registry included) exactly unchanged; its only
effect in the source is a diagnostic log line, which is outside the state. -/
theorem volmeter_updated_unknown_id_noop {α : Type} (c : MetricCollector α)
    (id : String) (m p ip : Nat → α) (h : lookupSrc c.sources id = none) :
    mc_volmeter_updated_go c id m p ip = c := by
  unfold mc_volmeter_updated_go
  rw [h]

theorem volmeter_updated_unknown_id_noop_witness :
    mc_volmeter_updated_go
        (⟨[("a", mkFreshSource "a" "source A")]⟩ : MetricCollector (WithBot ℤ))
        "b" (fun _ => (5 : WithBot ℤ)) (fun _ => 6) (fun _ => 7) =
      ⟨[("a", mkFreshSource "a" "source A")]⟩ :=
  volmeter_updated_unknown_id_noop _ "b" _ _ _ (by decide)

end ObsExporter
